import Mathlib

/-!
# Treasury Tracker — verification of the normalization / valuation / snapshot core

Shallow embedding of the core of `src/Treasuretracker.py` (and the
`latest_snapshot` variant in `src/app.py`): JSON payload normalization
(`normalize_companies_payload` via `pd.json_normalize`), valuation
(`add_values_fx`), PnL computation (`compute_pnl`), and the joblib-backed
snapshot store (`save_snapshot`, `load_snapshots`, `latest_snapshot`).

Modelling choices:
* JSON numbers and Python floats are modelled by `ℚ`; the IEEE-754 artifacts
  the code manipulates explicitly (`inf`, `-inf`, `NaN`/`None`) are modelled
  by dedicated cell constructors (`pinf`, `ninf`, `null`); `NaN` and `None`
  are identified, as pandas does inside float columns.
* A pandas `DataFrame` is a row count plus an ordered list of named columns
  (`Table`); per-column dtype inference is modelled by `isNumericDtype` on
  the column's cells (numeric iff the cells are numbers/infinities with at
  least one number, nulls allowed, or the column is all-boolean and
  nonempty, matching pandas dtype inference on JSON-derived columns).
* Fallible Python code (`raise` paths such as `astype(float)` on a
  non-numeric string, or `pd.json_normalize` on a non-object record)
  returns `Except String _`.
-/

/-- A JSON value, as produced by `requests.Response.json()`. -/
inductive Json where
  | null
  | bool (b : Bool)
  | num (q : ℚ)
  | str (s : String)
  | arr (xs : List Json)
  | obj (kvs : List (String × Json))

/-- A cell of a pandas `DataFrame`.  `null` stands for both Python `None`
and float `NaN` (pandas identifies them inside float columns); `pinf`/`ninf`
are the IEEE infinities that `compute_pnl` explicitly replaces; `arr`/`jobj`
are unflattened JSON values stored in an object-dtype cell. -/
inductive Cell where
  | null
  | num (q : ℚ)
  | str (s : String)
  | bool (b : Bool)
  | pinf
  | ninf
  | arr (xs : List Json)
  | jobj (kvs : List (String × Json))

/-- A pandas `DataFrame`: a row count (the index length) and an ordered list
of named columns.  Well-formed tables have every column of length `nrows`. -/
structure Table where
  nrows : Nat
  cols : List (String × List Cell)

/-- Every column has exactly `nrows` cells. -/
def Table.WF (t : Table) : Prop := ∀ p ∈ t.cols, p.2.length = t.nrows

/-- The column labels, in order (`df.columns`). -/
def Table.colNames (t : Table) : List String := t.cols.map Prod.fst

/-- `df[name]`: the first column with the given label, if any. -/
def Table.getCol (t : Table) (name : String) : Option (List Cell) :=
  (t.cols.find? (fun p => p.1 == name)).map Prod.snd

/-- Replace the value of key `k` in an assoc list, keeping its position, or
append `(k, v)` at the end — Python `dict` assignment order semantics. -/
def upsert {β : Type} : List (String × β) → String → β → List (String × β)
  | [], k, v => [(k, v)]
  | (k', v') :: rest, k, v =>
      if k' == k then (k', v) :: rest else (k', v') :: upsert rest k v

/-- `df[name] = vals`: column assignment — overwrite in place if the label
exists, otherwise append a new column at the end. -/
def Table.setCol (t : Table) (name : String) (vals : List Cell) : Table :=
  ⟨t.nrows, upsert t.cols name vals⟩

/-- Convert a JSON leaf (or unflattened array/object) to a cell, as the
pandas `DataFrame` constructor stores it. -/
def Json.toCell : Json → Cell
  | .null => .null
  | .bool b => .bool b
  | .num q => .num q
  | .str s => .str s
  | .arr xs => .arr xs
  | .obj kvs => .jobj kvs

mutual
/-- Flatten one JSON value under dotted key `key`, as
`pd.json_normalize` does: nested objects recurse with a `.`-joined path,
everything else becomes a single cell. -/
def flattenOne (key : String) : Json → List (String × Cell)
  | .obj kvs => flattenPairs (key ++ ".") kvs
  | .null => [(key, .null)]
  | .bool b => [(key, .bool b)]
  | .num q => [(key, .num q)]
  | .str s => [(key, .str s)]
  | .arr xs => [(key, .arr xs)]

/-- Flatten the fields of a JSON object under prefix `pre`. -/
def flattenPairs (pre : String) : List (String × Json) → List (String × Cell)
  | [] => []
  | (k, v) :: rest => flattenOne (pre ++ k) v ++ flattenPairs pre rest
end

/-- Collapse duplicate keys in a flattened record the way a Python `dict`
does: first occurrence fixes the position, the last assignment wins. -/
def dedupPairs (ps : List (String × Cell)) : List (String × Cell) :=
  ps.foldl (fun acc p => upsert acc p.1 p.2) []

/-- Flatten one record of `pd.json_normalize`; a non-object record raises. -/
def flattenRecord : Json → Except String (List (String × Cell))
  | .obj kvs => .ok (dedupPairs (flattenPairs "" kvs))
  | _ => .error "json_normalize: record is not an object"

/-- The union of the records' keys, in order of first appearance — the
column labels `pd.json_normalize` produces. -/
def collectCols (recs : List (List (String × Cell))) : List String :=
  recs.foldl
    (fun acc r =>
      r.foldl (fun a p => if a.contains p.1 then a else a ++ [p.1]) acc) []

/-- Look a key up in a flattened record; a missing key is `NaN`. -/
def lookupCell (r : List (String × Cell)) (k : String) : Cell :=
  match r.find? (fun p => p.1 == k) with
  | some p => p.2
  | none => .null

/-- Assemble flattened records into a `DataFrame`. -/
def recordsToTable (recs : List (List (String × Cell))) : Table :=
  ⟨recs.length,
   (collectCols recs).map (fun k => (k, recs.map (fun r => lookupCell r k)))⟩

/-- Map a fallible function over a list, failing at the first error (the
order in which Python raises). -/
def listMapExcept {α β : Type} (f : α → Except String β) :
    List α → Except String (List β)
  | [] => .ok []
  | x :: xs =>
      match f x with
      | .error e => .error e
      | .ok y =>
          match listMapExcept f xs with
          | .error e => .error e
          | .ok ys => .ok (y :: ys)

/-- `pd.json_normalize(payload)` on a list of records. -/
def jsonNormalize (xs : List Json) : Except String Table :=
  (listMapExcept flattenRecord xs).map recordsToTable

/-- `pd.DataFrame([payload])`: wrap a single JSON value as a one-row table
(no flattening; a non-object scalar becomes the single column `0`). -/
def dataFrameOfSingle (payload : Json) : Table :=
  match payload with
  | .obj kvs => ⟨1, (dedupPairs (kvs.map (fun p => (p.1, p.2.toCell)))).map
      (fun p => (p.1, [p.2]))⟩
  | j => ⟨1, [("0", [j.toCell])]⟩

/-- The fixed priority list of known list-valued payload keys. -/
def knownKeys : List String := ["companies", "data", "items", "treasury"]

/-- Scan `knownKeys` in order for a key bound to a list in the payload. -/
def findKnownList (kvs : List (String × Json)) : Option (List Json) :=
  knownKeys.findSome? (fun k =>
    match (kvs.find? (fun p => p.1 == k)).map Prod.snd with
    | some (.arr xs) => some xs
    | _ => none)

/-- `normalize_companies_payload` (src/Treasuretracker.py, lines 81–88). -/
def normalize_companies_payload : Json → Except String Table
  | .obj kvs =>
      match findKnownList kvs with
      | some xs => jsonNormalize xs
      | none => .ok (dataFrameOfSingle (.obj kvs))
  | .arr xs => jsonNormalize xs
  | j => .ok (dataFrameOfSingle j)

/-! ## Numeric coercion and cell arithmetic -/

/-- Python `str.lower()` (ASCII case mapping, which is all the currency
codes exercise). -/
def pyLower (s : String) : String := ⟨s.data.map Char.toLower⟩

/-- Value of a digit string (digits already checked). -/
def digitsNat (cs : List Char) : Nat :=
  cs.foldl (fun n c => n * 10 + (c.toNat - 48)) 0

/-- Parse an unsigned decimal literal (`"5"`, `"5."`, `".5"`, `"2.25"`). -/
def parseUnsigned (cs : List Char) : Option ℚ :=
  let intCs := cs.takeWhile (fun c => c ≠ '.')
  match cs.dropWhile (fun c => c ≠ '.') with
  | [] =>
      if intCs.isEmpty || !intCs.all Char.isDigit then none
      else some (digitsNat intCs : ℚ)
  | '.' :: fracCs =>
      if (intCs.isEmpty && fracCs.isEmpty)
          || !intCs.all Char.isDigit || !fracCs.all Char.isDigit then none
      else some ((digitsNat intCs : ℚ)
        + (digitsNat fracCs : ℚ) / (10 : ℚ) ^ fracCs.length)
  | _ => none

/-- Strip surrounding whitespace, as Python `float()` tolerates. -/
def stripWs (cs : List Char) : List Char :=
  ((cs.dropWhile Char.isWhitespace).reverse.dropWhile Char.isWhitespace).reverse

/-- Parse a Python-float-style decimal string (models the string handling of
`pd.to_numeric` / `astype(float)`; exponent notation is not needed by any
payload the claims touch). -/
def parseRat (s : String) : Option ℚ :=
  match stripWs s.data with
  | '-' :: rest => (parseUnsigned rest).map Neg.neg
  | '+' :: rest => parseUnsigned rest
  | cs => parseUnsigned cs

/-- Is this cell a float-like number (number or infinity)? -/
def Cell.isNumLike : Cell → Bool
  | .num _ | .pinf | .ninf => true
  | _ => false

/-- Is this cell `None`/`NaN`? -/
def Cell.isNullC : Cell → Bool
  | .null => true
  | _ => false

/-- `pd.api.types.is_numeric_dtype` on a JSON-derived column: numeric iff
the cells are numbers/infinities with nulls allowed and at least one actual
number present (all-`None` columns get object dtype), or the column is
nonempty and all-boolean (bool dtype is numeric in pandas). -/
def isNumericDtype (cs : List Cell) : Bool :=
  (cs.any Cell.isNumLike && cs.all (fun c => c.isNumLike || c.isNullC))
    || (!cs.isEmpty && cs.all (fun c => match c with | .bool _ => true | _ => false))

/-- One cell of `pd.to_numeric(col, errors='coerce')`: numbers and
infinities pass through, booleans become 0/1, numeric strings parse,
everything else coerces to `NaN`. -/
def toNumericCoerce : Cell → Cell
  | .num q => .num q
  | .pinf => .pinf
  | .ninf => .ninf
  | .bool b => .num (if b then 1 else 0)
  | .str s => match parseRat s with
      | some q => .num q
      | none => .null
  | _ => .null

/-- `.fillna(0.0)` on one cell. -/
def fillnaZero : Cell → Cell
  | .null => .num 0
  | c => c

/-- One cell of `col.astype(float)`: like `to_numeric` but an unparseable
string or a nested container raises `ValueError`/`TypeError`. -/
def astypeFloat : Cell → Except String Cell
  | .num q => .ok (.num q)
  | .pinf => .ok .pinf
  | .ninf => .ok .ninf
  | .null => .ok .null
  | .bool b => .ok (.num (if b then 1 else 0))
  | .str s => match parseRat s with
      | some q => .ok (.num q)
      | none => .error "could not convert string to float"
  | _ => .error "float() argument must be a string or a real number"

/-- Multiply a float-like cell by a scalar, IEEE-style (`NaN` and non-float
cells propagate as `NaN`; the non-float case is unreachable after
`to_numeric`/`astype`). -/
def Cell.mulQ : Cell → ℚ → Cell
  | .num q, p => .num (q * p)
  | .pinf, p => if 0 < p then .pinf else if p < 0 then .ninf else .null
  | .ninf, p => if 0 < p then .ninf else if p < 0 then .pinf else .null
  | _, _ => .null

/-- Elementwise float subtraction of two cells, IEEE-style. -/
def Cell.subC : Cell → Cell → Cell
  | .num a, .num b => .num (a - b)
  | .num _, .pinf => .ninf
  | .num _, .ninf => .pinf
  | .pinf, .num _ => .pinf
  | .ninf, .num _ => .ninf
  | .pinf, .ninf => .pinf
  | .ninf, .pinf => .ninf
  | _, _ => .null

/-- Elementwise float division of two cells, IEEE-style: a nonzero number
over zero gives a signed infinity, `0/0` gives `NaN`. -/
def Cell.divC : Cell → Cell → Cell
  | .num a, .num b =>
      if b = 0 then (if 0 < a then .pinf else if a < 0 then .ninf else .null)
      else .num (a / b)
  | .pinf, .num b => if 0 ≤ b then .pinf else .ninf
  | .ninf, .num b => if 0 ≤ b then .ninf else .pinf
  | .num _, .pinf => .num 0
  | .num _, .ninf => .num 0
  | _, _ => .null

/-- `.replace([float('inf'), -float('inf')], None)` on one cell (pandas ≥1.4
replaces with `None`, which is `NaN` inside a float column). -/
def replaceInfNone : Cell → Cell
  | .pinf => .null
  | .ninf => .null
  | c => c

/-! ## Valuation engine -/

/-- The fixed priority list of candidate amount columns. -/
def candidates : List String :=
  ["total_holdings", "holdings", "amount", "quantity",
   "total_btc_holdings", "total_eth_holdings"]

/-- The amount-column resolution loop of `add_values_fx` (lines 93–100):
the first present candidate name, else the label of the first column with a
numeric dtype, else `None`. -/
def resolveAmountCol (t : Table) : Option String :=
  match candidates.find? (fun c => t.colNames.contains c) with
  | some c => some c
  | none =>
      match t.cols.find? (fun q => isNumericDtype q.2) with
      | some q => some q.1
      | none => none

/-- The `coins` column `add_values_fx` attaches (lines 101–104): all-zero
when no amount column was resolved, else the resolved column coerced with
`pd.to_numeric(·, errors='coerce').fillna(0.0)`. -/
def coinsCellsOf (t : Table) : List Cell :=
  match resolveAmountCol t with
  | none => List.replicate t.nrows (.num 0)
  | some c =>
      ((t.getCol c).getD []).map (fun x => fillnaZero (toNumericCoerce x))

/-- The FX guard of `add_values_fx` (line 106): non-USD display, truthy
rates mapping, and the lowered currency present in it. -/
def fxCond (fiat_rates : Option (List (String × ℚ))) (fiat : String) : Bool :=
  (pyLower fiat != "usd") &&
    (match fiat_rates with
     | some rs => !rs.isEmpty && (rs.find? (fun q => q.1 == pyLower fiat)).isSome
     | none => false)

/-- The FX rate `add_values_fx` reads (line 107) when the guard holds. -/
def fxRate (fiat_rates : Option (List (String × ℚ))) (fiat : String) : ℚ :=
  match fiat_rates with
  | some rs => ((rs.find? (fun q => q.1 == pyLower fiat)).map Prod.snd).getD 0
  | none => 0

/-- `add_values_fx` (src/Treasuretracker.py, lines 90–109).
`fiat_rates=None` is the Python default; a `none` or empty mapping is falsy
and skips the FX column. -/
def add_values_fx (df : Table) (coin_price_usd : ℚ)
    (fiat_rates : Option (List (String × ℚ))) (fiat : String) : Table :=
  let out := df
  let coinsCells := coinsCellsOf out
  let out := out.setCol "coins" coinsCells
  let valueCells := coinsCells.map (Cell.mulQ · coin_price_usd)
  let out := out.setCol "value_usd" valueCells
  if fxCond fiat_rates fiat then
    out.setCol ("value_" ++ pyLower fiat)
      (valueCells.map (fun x => Cell.mulQ x (fxRate fiat_rates fiat)))
  else out

/-- Elementwise float negation — used only to *state* the relation
`pnl_usd = -cost_basis_usd` of the missing-`value_usd` path. -/
def Cell.negC : Cell → Cell
  | .num q => .num (-q)
  | .pinf => .ninf
  | .ninf => .pinf
  | _ => .null

/-- The amount-column resolution policy as §4.3 of the spec words it:
scan the fixed priority list and use the first present; if none is present
fall back to the first column whose values are all numeric; if still none
the amount column is all-zero; individual non-numeric or missing values
coerce to zero.  Stated from the spec's words, separately from
`add_values_fx`, so the implementation can be compared against it. -/
def coinsSpec (t : Table) : List Cell :=
  match candidates.find? (fun c => t.colNames.contains c) with
  | some c =>
      ((t.getCol c).getD []).map (fun x => fillnaZero (toNumericCoerce x))
  | none =>
      match (t.cols.filter (fun q => isNumericDtype q.2)).head? with
      | some q =>
          ((t.getCol q.1).getD []).map (fun x => fillnaZero (toNumericCoerce x))
      | none => List.replicate t.nrows (.num 0)

/-- `compute_pnl` (src/Treasuretracker.py, lines 111–121).
`assumed_cost_per_coin_usd=None` is the default; `none` and `some 0` are
falsy.  The missing-`value_usd` case is the scalar `0.0` of `df.get`. -/
def compute_pnl (df : Table) (assumed_cost_per_coin_usd : Option ℚ)
    (coins_col : String := "coins") : Except String Table :=
  let out := df
  if assumed_cost_per_coin_usd = none ∨ assumed_cost_per_coin_usd = some 0 then
    let out := out.setCol "cost_basis_usd" (List.replicate out.nrows .null)
    let out := out.setCol "pnl_usd" (List.replicate out.nrows .null)
    let out := out.setCol "pnl_pct" (List.replicate out.nrows .null)
    .ok out
  else
    let a : ℚ := assumed_cost_per_coin_usd.getD 0
    match out.getCol coins_col with
    | none => .error "KeyError"
    | some coinsRaw =>
        match listMapExcept astypeFloat coinsRaw with
        | .error e => .error e
        | .ok coinsF =>
            let costCells := coinsF.map (Cell.mulQ · a)
            let out := out.setCol "cost_basis_usd" costCells
            let pnlCells :=
              match out.getCol "value_usd" with
              | some vs => List.zipWith Cell.subC vs costCells
              | none => costCells.map (Cell.subC (.num 0))
            let out := out.setCol "pnl_usd" pnlCells
            let pctCells :=
              (List.zipWith Cell.divC pnlCells costCells).map replaceInfNone
            let out := out.setCol "pnl_pct" pctCells
            .ok out

/-! ## Snapshot store -/

/-- One snapshot record `{'timestamp', 'coin', 'data'}`. -/
structure Snap where
  timestamp : String
  coin : String
  data : Table

/-- The persisted store file: `none` when `data/treasury_snapshots.pkl`
does not exist, otherwise the deserialized list. -/
def StoreFile := Option (List Snap)

/-- `load_snapshots` (src/Treasuretracker.py, lines 150–153). -/
def load_snapshots (st : StoreFile) : List Snap :=
  match st with
  | some snaps => snaps
  | none => []

/-- `save_snapshot` (src/Treasuretracker.py, lines 140–148); the ambient
`datetime.utcnow()` is passed in as `ts`.  Returns the new file state. -/
def save_snapshot (st : StoreFile) (df : Table) (coin : String)
    (ts : String) : StoreFile :=
  let snaps := match st with
    | some s => s
    | none => []
  some (snaps ++ [⟨ts, coin, df⟩])

/-- `latest_snapshot` (src/Treasuretracker.py, lines 155–164). -/
def latest_snapshot (st : StoreFile) (coin : Option String) : Option Snap :=
  let snaps := load_snapshots st
  if snaps.isEmpty then none
  else match coin with
    | none => snaps.getLast?
    | some c => snaps.reverse.find? (fun r => r.coin == c)

/-- `latest_snapshot` of the dashboard (src/app.py, lines 20–25): filter by
coin, then take the last element. -/
def latest_snapshot_app (st : StoreFile) (coin : String) : Option Snap :=
  let snaps := load_snapshots st
  let snaps_coin := snaps.filter (fun s => s.coin == coin)
  if snaps_coin.isEmpty then none else snaps_coin.getLast?

/-- Fold a sequence of `save_snapshot` calls over a store state. -/
def appendMany (st : StoreFile) (items : List (Table × String × String)) :
    StoreFile :=
  items.foldl (fun s it => save_snapshot s it.1 it.2.1 it.2.2) st

/-! ## Helper lemmas -/

theorem find?_upsert_self {β : Type} (l : List (String × β)) (n : String)
    (v : β) : (upsert l n v).find? (fun p => p.1 == n) = some (n, v) := by
  induction l with
  | nil => simp [upsert, List.find?]
  | cons p rest ih =>
    obtain ⟨k, w⟩ := p
    by_cases h : k = n
    · subst h; simp [upsert, List.find?]
    · simp [upsert, h, List.find?, ih]

theorem find?_upsert_ne {β : Type} (l : List (String × β)) (n m : String)
    (v : β) (h : m ≠ n) :
    (upsert l n v).find? (fun p => p.1 == m)
      = l.find? (fun p => p.1 == m) := by
  induction l with
  | nil =>
    have hnm : (n == m) = false := beq_eq_false_iff_ne.mpr fun hh => h hh.symm
    simp [upsert, List.find?, hnm]
  | cons p rest ih =>
    obtain ⟨k, w⟩ := p
    by_cases hk : k = n
    · subst hk
      have hkm : (k == m) = false := beq_eq_false_iff_ne.mpr fun hh => h hh.symm
      simp [upsert, List.find?, hkm]
    · by_cases hm : k = m
      · subst hm; simp [upsert, hk, List.find?]
      · have hkm : (k == m) = false := beq_eq_false_iff_ne.mpr hm
        simp [upsert, hk, List.find?, hkm, ih]

theorem getCol_setCol_self (t : Table) (n : String) (v : List Cell) :
    (t.setCol n v).getCol n = some v := by
  simp [Table.getCol, Table.setCol, find?_upsert_self]

theorem getCol_setCol_ne (t : Table) (n m : String) (v : List Cell)
    (h : m ≠ n) : (t.setCol n v).getCol m = t.getCol m := by
  simp [Table.getCol, Table.setCol, find?_upsert_ne _ _ _ _ h]

theorem nrows_setCol (t : Table) (n : String) (v : List Cell) :
    (t.setCol n v).nrows = t.nrows := rfl

theorem getCol_eq_none_iff (t : Table) (n : String) :
    t.getCol n = none ↔ n ∉ t.colNames := by
  unfold Table.getCol Table.colNames
  rw [Option.map_eq_none', List.find?_eq_none]
  constructor
  · intro h hmem
    obtain ⟨p, hp, hf⟩ := List.mem_map.mp hmem
    exact (by simpa using h p hp : ¬ p.1 = n) hf
  · intro h p hp
    simp only [beq_iff_eq]
    exact fun he => h (he ▸ List.mem_map_of_mem Prod.fst hp)

theorem getCol_mem (t : Table) (n : String) (col : List Cell)
    (h : t.getCol n = some col) : ∃ p ∈ t.cols, p.1 = n ∧ p.2 = col := by
  unfold Table.getCol at h
  rw [Option.map_eq_some'] at h
  obtain ⟨p, hp, hcol⟩ := h
  exact ⟨p, List.mem_of_find?_eq_some hp,
    by simpa using List.find?_some hp, hcol⟩

theorem find?_eq_filter_head? {α : Type} (p : α → Bool) (l : List α) :
    l.find? p = (l.filter p).head? := by
  induction l with
  | nil => rfl
  | cons a l ih =>
    by_cases h : p a
    · rw [List.find?_cons_of_pos _ h, List.filter_cons_of_pos h]; rfl
    · rw [List.find?_cons_of_neg _ h, List.filter_cons_of_neg h, ih]

theorem filter_getLast?_eq_reverse_find? {α : Type} (p : α → Bool)
    (l : List α) : (l.filter p).getLast? = l.reverse.find? p := by
  rw [find?_eq_filter_head?, List.filter_reverse, List.head?_reverse]

theorem listMapExcept_ok_length {α β : Type} (f : α → Except String β)
    (xs : List α) (ys : List β) (h : listMapExcept f xs = .ok ys) :
    ys.length = xs.length := by
  induction xs generalizing ys with
  | nil => simp [listMapExcept] at h; simp [← h]
  | cons x xs ih =>
    simp only [listMapExcept] at h
    cases hfx : f x with
    | error e => rw [hfx] at h; exact absurd h (by simp)
    | ok y =>
      rw [hfx] at h
      cases hrec : listMapExcept f xs with
      | error e => rw [hrec] at h; exact absurd h (by simp)
      | ok ys' =>
        rw [hrec] at h
        cases h
        simp [ih ys' hrec]

theorem listMapExcept_astype_id (cs : List Cell)
    (h : ∀ c ∈ cs, (∃ q, c = .num q) ∨ c = .null) :
    listMapExcept astypeFloat cs = .ok cs := by
  induction cs with
  | nil => rfl
  | cons c cs ih =>
    have hc := h c (by simp)
    have hcs := ih (fun x hx => h x (by simp [hx]))
    rcases hc with ⟨q, rfl⟩ | rfl <;>
      simp [listMapExcept, astypeFloat, hcs]

theorem zipWith_getElem? (f : Cell → Cell → Cell) :
    ∀ (as bs : List Cell) (i : Nat) (a b : Cell), as[i]? = some a →
      bs[i]? = some b → (List.zipWith f as bs)[i]? = some (f a b) := by
  intro as
  induction as with
  | nil => intro bs i a b ha; simp at ha
  | cons x xs ih =>
    intro bs i a b ha hb
    cases bs with
    | nil => simp at hb
    | cons y ys =>
      cases i with
      | zero => simp_all
      | succ j => simpa using ih ys j a b (by simpa using ha) (by simpa using hb)

theorem string_append_data (a b : String) : (a ++ b).data = a.data ++ b.data := rfl

theorem value_name_ne_coins (s : String) : ("value_" ++ s) ≠ "coins" := by
  intro h
  have hd := congrArg (fun x => x.data.length) h
  simp [string_append_data] at hd

theorem value_name_eq_value_usd {s : String} :
    ("value_" ++ s = "value_usd") ↔ s = "usd" := by
  constructor
  · intro h
    have hd : "value_".data ++ s.data = "value_".data ++ "usd".data :=
      (string_append_data _ _).symm.trans (congrArg String.data h)
    exact String.ext (List.append_cancel_left hd)
  · intro h; subst h; rfl

theorem load_save (st : StoreFile) (df : Table) (coin ts : String) :
    load_snapshots (save_snapshot st df coin ts)
      = load_snapshots st ++ [⟨ts, coin, df⟩] := by
  cases st <;> rfl

theorem latest_app_eq_filter_getLast? (st : StoreFile) (c : String) :
    latest_snapshot_app st c
      = ((load_snapshots st).filter (fun r => r.coin == c)).getLast? := by
  simp only [latest_snapshot_app]
  cases h : (load_snapshots st).filter (fun r => r.coin == c) with
  | nil => simp
  | cons a l => simp

/-! ## Claims -/

/-- **C4** — Store round-trip: starting from any store file state, a
sequence of `save_snapshot` calls followed by `load_snapshots` returns the
prior snapshots followed by exactly the appended snapshots, in append
order, each keeping its coin tag and data table. -/
theorem claim_C4 (st : StoreFile) (items : List (Table × String × String)) :
    load_snapshots (appendMany st items)
      = load_snapshots st
          ++ items.map (fun it => Snap.mk it.2.2 it.2.1 it.1) := by
  induction items generalizing st with
  | nil => simp [appendMany]
  | cons it rest ih =>
    obtain ⟨df, coin, ts⟩ := it
    show load_snapshots (appendMany (save_snapshot st df coin ts) rest) = _
    rw [ih, load_save, List.append_assoc]
    rfl

/-- **C5** — Latest-query semantics: with no coin tag `latest_snapshot`
returns the last-appended snapshot; with a tag it returns the last-inserted
snapshot whose coin equals the key (equivalently the dashboard's
filter-then-last variant), or `none` if no snapshot matches; in particular
after appending snapshots tagged bitcoin, ethereum, bitcoin, the query for
"bitcoin" returns the third append. -/
theorem claim_C5 :
    (∀ st : StoreFile,
      latest_snapshot st none = (load_snapshots st).getLast?)
    ∧ (∀ (st : StoreFile) (c : String),
        latest_snapshot st (some c)
          = ((load_snapshots st).filter (fun r => r.coin == c)).getLast?)
    ∧ (∀ (st : StoreFile) (c : String),
        latest_snapshot st (some c) = latest_snapshot_app st c)
    ∧ (∀ (d1 d2 d3 : Table) (t1 t2 t3 : String),
        latest_snapshot
          (appendMany none
            [(d1, "bitcoin", t1), (d2, "ethereum", t2), (d3, "bitcoin", t3)])
          (some "bitcoin")
          = some ⟨t3, "bitcoin", d3⟩) := by
  have key : ∀ (st : StoreFile) (c : String),
      latest_snapshot st (some c)
        = ((load_snapshots st).filter (fun r => r.coin == c)).getLast? := by
    intro st c
    simp only [latest_snapshot]
    cases h : load_snapshots st with
    | nil => simp
    | cons a l =>
      rw [filter_getLast?_eq_reverse_find?]
      simp [List.isEmpty]
  refine ⟨?_, key, ?_, ?_⟩
  · intro st
    simp only [latest_snapshot]
    cases h : load_snapshots st with
    | nil => simp
    | cons a l => simp
  · intro st c
    rw [key, latest_app_eq_filter_getLast?]
  · intro d1 d2 d3 t1 t2 t3
    rfl

/-- **C6** — Normalizer shape tolerance: a payload `{"companies": rows}`,
`{"data": rows}`, and the bare list `rows` all normalize to the identical
table; known keys are scanned in priority order (`companies` first); a
payload with no known list-valued key is wrapped as a one-row table. -/
theorem claim_C6 :
    (∀ xs : List Json,
      normalize_companies_payload (.obj [("companies", .arr xs)])
          = jsonNormalize xs
      ∧ normalize_companies_payload (.obj [("data", .arr xs)])
          = jsonNormalize xs
      ∧ normalize_companies_payload (.arr xs) = jsonNormalize xs)
    ∧ (∀ xs ys zs ws : List Json,
        normalize_companies_payload
          (.obj [("companies", .arr xs), ("data", .arr ys),
                 ("items", .arr zs), ("treasury", .arr ws)])
          = jsonNormalize xs)
    ∧ (∀ kvs : List (String × Json), findKnownList kvs = none →
        normalize_companies_payload (.obj kvs)
          = .ok (dataFrameOfSingle (.obj kvs))) := by
  refine ⟨fun xs => ⟨rfl, rfl, rfl⟩, fun xs ys zs ws => rfl, ?_⟩
  intro kvs h
  simp [normalize_companies_payload, h]

/-- **C6 witness** — the single-object fallback at a concrete payload with
no known list-valued key. -/
theorem claim_C6_witness :
    normalize_companies_payload (.obj [("name", Json.str "A")])
      = .ok (dataFrameOfSingle (.obj [("name", Json.str "A")])) :=
  claim_C6.2.2 [("name", Json.str "A")] rfl

/-- **C7** — Empty-payload policy: normalizing `{}` returns the one-row
zero-column table (no error), and payloads yielding no rows (`{"companies":
[]}`, the bare `[]`) return the empty table rather than an error. -/
theorem claim_C7 :
    normalize_companies_payload (.obj []) = .ok ⟨1, []⟩
    ∧ normalize_companies_payload (.obj [("companies", .arr [])]) = .ok ⟨0, []⟩
    ∧ normalize_companies_payload (.arr []) = .ok ⟨0, []⟩ :=
  ⟨rfl, rfl, rfl⟩

/-- **C3** — PnL null-propagation: with the assumed cost absent (`none`) or
zero, `compute_pnl` succeeds on every table and sets `cost_basis_usd`,
`pnl_usd` and `pnl_pct` to null for every row, leaving the row count
unchanged, regardless of any `value_usd` column. -/
theorem claim_C3 (t : Table) (a : Option ℚ) (h : a = none ∨ a = some 0) :
    ∃ u, compute_pnl t a = .ok u
      ∧ u.getCol "cost_basis_usd" = some (List.replicate t.nrows .null)
      ∧ u.getCol "pnl_usd" = some (List.replicate t.nrows .null)
      ∧ u.getCol "pnl_pct" = some (List.replicate t.nrows .null)
      ∧ u.nrows = t.nrows := by
  refine ⟨((t.setCol "cost_basis_usd" (List.replicate t.nrows .null)).setCol
      "pnl_usd" (List.replicate t.nrows .null)).setCol "pnl_pct"
      (List.replicate t.nrows .null), ?_, ?_, ?_, ?_, rfl⟩
  · simp only [compute_pnl]
    rw [if_pos h]
    rfl
  · rw [getCol_setCol_ne _ _ _ _ (by decide), getCol_setCol_ne _ _ _ _ (by decide),
      getCol_setCol_self]
  · rw [getCol_setCol_ne _ _ _ _ (by decide), getCol_setCol_self]
  · rw [getCol_setCol_self]

/-- **C3 witness** — the falsy path at a concrete one-row table carrying a
`value_usd` column. -/
theorem claim_C3_witness :
    ∃ u, compute_pnl ⟨1, [("value_usd", [Cell.num 100])]⟩ none = .ok u
      ∧ u.getCol "cost_basis_usd" = some [Cell.null]
      ∧ u.getCol "pnl_usd" = some [Cell.null]
      ∧ u.getCol "pnl_pct" = some [Cell.null]
      ∧ u.nrows = 1 :=
  claim_C3 ⟨1, [("value_usd", [Cell.num 100])]⟩ none (Or.inl rfl)

theorem replaceInf_divC_zero (x : Cell) :
    replaceInfNone (Cell.divC x (.num 0)) = .null := by
  cases x with
  | num a =>
    have hdiv : Cell.divC (.num a) (.num 0)
        = if 0 < a then .pinf else if a < 0 then .ninf else .null := by
      simp [Cell.divC]
    rw [hdiv]
    split_ifs <;> rfl
  | pinf =>
    have hdiv : Cell.divC .pinf (.num 0) = .pinf := by simp [Cell.divC]
    rw [hdiv]; rfl
  | ninf =>
    have hdiv : Cell.divC .ninf (.num 0) = .ninf := by simp [Cell.divC]
    rw [hdiv]; rfl
  | null => rfl
  | str s => rfl
  | bool b => rfl
  | arr xs => rfl
  | jobj kvs => rfl

/-- **C2** — Division-by-zero normalization: on any well-formed table, when
a truthy assumed cost is supplied and `compute_pnl` succeeds, every row
whose `cost_basis_usd` is zero gets a null `pnl_pct` (the `inf`/`-inf` the
raw division would produce is replaced), never an infinity. -/
theorem claim_C2 (t : Table) (hwf : t.WF) (a : ℚ) (ha : a ≠ 0) (u : Table)
    (i : Nat) (hok : compute_pnl t (some a) = .ok u)
    (hzero : (u.getCol "cost_basis_usd").bind (fun col => col[i]?)
      = some (.num 0)) :
    (u.getCol "pnl_pct").bind (fun col => col[i]?) = some .null := by
  simp only [compute_pnl] at hok
  rw [if_neg (by simp [ha])] at hok
  cases hg : t.getCol "coins" with
  | none => simp [hg] at hok
  | some coinsRaw =>
    simp only [hg] at hok
    cases hm : listMapExcept astypeFloat coinsRaw with
    | error e => simp [hm] at hok
    | ok coinsF =>
      simp only [hm] at hok
      rw [getCol_setCol_ne _ _ _ _ (by decide)] at hok
      have hlenF : coinsF.length = coinsRaw.length :=
        listMapExcept_ok_length _ _ _ hm
      have hlenRaw : coinsRaw.length = t.nrows := by
        obtain ⟨p, hp, hp1, hp2⟩ := getCol_mem t "coins" coinsRaw hg
        rw [← hp2]; exact hwf p hp
      cases hv : t.getCol "value_usd" with
      | none =>
        simp only [hv] at hok
        obtain rfl : _ = u := by injection hok
        rw [getCol_setCol_ne _ _ _ _ (by decide),
          getCol_setCol_ne _ _ _ _ (by decide), getCol_setCol_self] at hzero
        rw [getCol_setCol_self]
        simp only [Option.bind] at hzero ⊢
        have hi : i < (coinsF.map (fun x => Cell.mulQ x ((some a).getD 0))).length := by
          rcases List.getElem?_eq_some.mp hzero with ⟨h, _⟩
          exact h
        have hipnl : i < ((coinsF.map (fun x => Cell.mulQ x ((some a).getD 0))).map
            (Cell.subC (.num 0))).length := by
          simpa using hi
        rw [List.getElem?_map,
          zipWith_getElem? _ _ _ _ _ _
            (List.getElem?_eq_getElem hipnl) hzero]
        simp [replaceInf_divC_zero]
      | some vs =>
        simp only [hv] at hok
        obtain rfl : _ = u := by injection hok
        rw [getCol_setCol_ne _ _ _ _ (by decide),
          getCol_setCol_ne _ _ _ _ (by decide), getCol_setCol_self] at hzero
        rw [getCol_setCol_self]
        simp only [Option.bind] at hzero ⊢
        have hi : i < (coinsF.map (fun x => Cell.mulQ x ((some a).getD 0))).length := by
          rcases List.getElem?_eq_some.mp hzero with ⟨h, _⟩
          exact h
        have hvs : vs.length = t.nrows := by
          obtain ⟨p, hp, hp1, hp2⟩ := getCol_mem t "value_usd" vs hv
          rw [← hp2]; exact hwf p hp
        have hipnl : i < (List.zipWith Cell.subC vs
            (coinsF.map (fun x => Cell.mulQ x ((some a).getD 0)))).length := by
          rw [List.length_zipWith]
          refine lt_min ?_ hi
          rw [hvs]
          simpa [hlenF, hlenRaw] using hi
        rw [List.getElem?_map,
          zipWith_getElem? _ _ _ _ _ _
            (List.getElem?_eq_getElem hipnl) hzero]
        simp [replaceInf_divC_zero]

unseal Rat.mul Rat.add Rat.sub Rat.inv in
/-- **C2 witness** — cost basis 0 (zero coins) with `value_usd = 100` and an
assumed cost of 50: `pnl_pct` comes out null. -/
theorem claim_C2_witness :
    ((⟨1, [("coins", [Cell.num 0]), ("value_usd", [Cell.num 100])]⟩ :
        Table).WF)
    ∧ ((⟨1, [("coins", [Cell.num 0]), ("value_usd", [Cell.num 100]),
          ("cost_basis_usd", [Cell.num 0]), ("pnl_usd", [Cell.num 100]),
          ("pnl_pct", [Cell.null])]⟩ : Table).getCol "pnl_pct").bind
        (fun col => col[0]?) = some .null := by
  have hwf : ((⟨1, [("coins", [Cell.num 0]), ("value_usd", [Cell.num 100])]⟩ :
      Table).WF) := by
    intro p hp
    simp only [List.mem_cons, List.not_mem_nil, or_false] at hp
    rcases hp with rfl | rfl <;> rfl
  refine ⟨hwf, ?_⟩
  exact claim_C2 ⟨1, [("coins", [Cell.num 0]), ("value_usd", [Cell.num 100])]⟩
    hwf 50 (by norm_num)
    ⟨1, [("coins", [Cell.num 0]), ("value_usd", [Cell.num 100]),
        ("cost_basis_usd", [Cell.num 0]), ("pnl_usd", [Cell.num 100]),
        ("pnl_pct", [Cell.null])]⟩
    0 rfl rfl

/-- **C10** — `compute_pnl` tolerates a missing `value_usd` column: on a
table with a numeric `coins` column but no `value_usd`, a positive assumed
cost succeeds (no raise), `df.get` supplies the scalar `0.0`, and `pnl_usd`
is the elementwise negation of `cost_basis_usd` in every row. -/
theorem claim_C10 (t : Table) (a : ℚ) (ha : 0 < a) (coinsC : List Cell)
    (hc : t.getCol "coins" = some coinsC)
    (hcells : ∀ c ∈ coinsC, (∃ q, c = .num q) ∨ c = .null)
    (hnov : t.getCol "value_usd" = none) :
    ∃ u costs, compute_pnl t (some a) = .ok u
      ∧ u.getCol "cost_basis_usd" = some costs
      ∧ u.getCol "pnl_usd" = some (costs.map Cell.negC) := by
  have hfalsy : ¬(some a = none ∨ some a = (some 0 : Option ℚ)) := by
    simp [ha.ne']
  have hmap : listMapExcept astypeFloat coinsC = .ok coinsC :=
    listMapExcept_astype_id coinsC hcells
  have hneg : (coinsC.map (fun x => Cell.mulQ x ((some a).getD 0))).map
        (Cell.subC (.num 0))
      = (coinsC.map (fun x => Cell.mulQ x ((some a).getD 0))).map Cell.negC := by
    apply List.map_congr_left
    intro c hcmem
    obtain ⟨c0, hc0, rfl⟩ := List.mem_map.mp hcmem
    rcases hcells c0 hc0 with ⟨q, rfl⟩ | rfl
    · simp [Cell.mulQ, Cell.subC, Cell.negC, zero_sub]
    · simp [Cell.mulQ, Cell.subC, Cell.negC]
  refine ⟨((t.setCol "cost_basis_usd"
        (coinsC.map (fun x => Cell.mulQ x ((some a).getD 0)))).setCol "pnl_usd"
        ((coinsC.map (fun x => Cell.mulQ x ((some a).getD 0))).map
          (Cell.subC (.num 0)))).setCol "pnl_pct"
        ((List.zipWith Cell.divC
          ((coinsC.map (fun x => Cell.mulQ x ((some a).getD 0))).map
            (Cell.subC (.num 0)))
          (coinsC.map (fun x => Cell.mulQ x ((some a).getD 0)))).map
          replaceInfNone),
      coinsC.map (fun x => Cell.mulQ x ((some a).getD 0)), ?_, ?_, ?_⟩
  · simp only [compute_pnl]
    rw [if_neg hfalsy]
    simp only [hc, hmap]
    rw [getCol_setCol_ne _ _ _ _ (by decide), hnov]
  · rw [getCol_setCol_ne _ _ _ _ (by decide),
      getCol_setCol_ne _ _ _ _ (by decide), getCol_setCol_self]
  · rw [getCol_setCol_ne _ _ _ _ (by decide), getCol_setCol_self, hneg]

/-- **C10 witness** — two coin rows, assumed cost 10, no `value_usd`
column. -/
theorem claim_C10_witness :
    ∃ u costs,
      compute_pnl ⟨2, [("coins", [Cell.num 2, Cell.null])]⟩ (some 10) = .ok u
      ∧ u.getCol "cost_basis_usd" = some costs
      ∧ u.getCol "pnl_usd" = some (costs.map Cell.negC) :=
  claim_C10 ⟨2, [("coins", [Cell.num 2, Cell.null])]⟩ 10 (by norm_num)
    [Cell.num 2, Cell.null] rfl
    (by
      intro c hc
      simp only [List.mem_cons, List.not_mem_nil, or_false] at hc
      rcases hc with rfl | rfl
      · exact Or.inl ⟨2, rfl⟩
      · exact Or.inr rfl)
    rfl

/-- **C9** — Frame effect: `add_values_fx` and `compute_pnl` are pure
functions of the input table (the caller's table is never mutated), and
every column other than the newly attached ones (`coins`, `value_usd`,
the optional `value_<fiat>`; resp. `cost_basis_usd`, `pnl_usd`, `pnl_pct`)
is carried to the result unchanged, with the row count preserved. -/
theorem claim_C9 :
    (∀ (t : Table) (p : ℚ) (fr : Option (List (String × ℚ)))
        (fiat name : String),
       name ≠ "coins" → name ≠ "value_usd" → name ≠ "value_" ++ pyLower fiat →
       (add_values_fx t p fr fiat).getCol name = t.getCol name
         ∧ (add_values_fx t p fr fiat).nrows = t.nrows)
    ∧ (∀ (t : Table) (a : Option ℚ) (ccol : String) (u : Table)
        (name : String),
        compute_pnl t a ccol = .ok u →
        name ≠ "cost_basis_usd" → name ≠ "pnl_usd" → name ≠ "pnl_pct" →
        u.getCol name = t.getCol name ∧ u.nrows = t.nrows) := by
  constructor
  · intro t p fr fiat name h1 h2 h3
    simp only [add_values_fx]
    by_cases hb : fxCond fr fiat = true
    · rw [if_pos hb]
      exact ⟨by rw [getCol_setCol_ne _ _ _ _ h3, getCol_setCol_ne _ _ _ _ h2,
        getCol_setCol_ne _ _ _ _ h1], rfl⟩
    · rw [if_neg hb]
      exact ⟨by rw [getCol_setCol_ne _ _ _ _ h2,
        getCol_setCol_ne _ _ _ _ h1], rfl⟩
  · intro t a ccol u name hok h1 h2 h3
    simp only [compute_pnl] at hok
    by_cases hfal : a = none ∨ a = some 0
    · rw [if_pos hfal] at hok
      obtain rfl : _ = u := by injection hok
      exact ⟨by rw [getCol_setCol_ne _ _ _ _ h3, getCol_setCol_ne _ _ _ _ h2,
        getCol_setCol_ne _ _ _ _ h1], rfl⟩
    · rw [if_neg hfal] at hok
      cases hg : t.getCol ccol with
      | none => simp [hg] at hok
      | some coinsRaw =>
        simp only [hg] at hok
        cases hm : listMapExcept astypeFloat coinsRaw with
        | error e => simp [hm] at hok
        | ok coinsF =>
          simp only [hm] at hok
          obtain rfl : _ = u := by injection hok
          exact ⟨by rw [getCol_setCol_ne _ _ _ _ h3,
            getCol_setCol_ne _ _ _ _ h2, getCol_setCol_ne _ _ _ _ h1], rfl⟩

/-- **C9 witness** — a `name` column survives both valuation and PnL
computation unchanged on concrete tables. -/
theorem claim_C9_witness :
    (add_values_fx
        ⟨1, [("name", [Cell.str "A"]), ("total_holdings", [Cell.num 5])]⟩
        2 none "usd").getCol "name" = some [Cell.str "A"]
    ∧ (∃ u, compute_pnl ⟨1, [("name", [Cell.str "A"]), ("coins", [Cell.num 5])]⟩
        none "coins" = .ok u ∧ u.getCol "name" = some [Cell.str "A"]) := by
  constructor
  · exact (claim_C9.1 ⟨1, [("name", [Cell.str "A"]),
      ("total_holdings", [Cell.num 5])]⟩ 2 none "usd" "name"
      (by decide) (by decide) (by decide)).1.trans rfl
  · refine ⟨⟨1, [("name", [Cell.str "A"]), ("coins", [Cell.num 5]),
        ("cost_basis_usd", [Cell.null]), ("pnl_usd", [Cell.null]),
        ("pnl_pct", [Cell.null])]⟩, rfl, ?_⟩
    exact (claim_C9.2 ⟨1, [("name", [Cell.str "A"]), ("coins", [Cell.num 5])]⟩
      none "coins" _ "name" rfl (by decide) (by decide) (by decide)).1.trans rfl

/-- **C8** — FX column conditionality: `value_usd` is always present after
valuation; when the display currency is not USD and its rate is found in
the supplied mapping, a `value_<currency>` column equal to `value_usd ×
rate` is added; in every other case (USD display, no/empty rates mapping,
rate missing) nothing beyond `coins` and `value_usd` is attached, so the
FX column is absent whenever the input did not already carry it. -/
theorem claim_C8 (t : Table) (p : ℚ) (fr : Option (List (String × ℚ)))
    (fiat : String) :
    (∃ vs, (add_values_fx t p fr fiat).getCol "value_usd" = some vs)
    ∧ (∀ (rs : List (String × ℚ)) (k : String) (rate : ℚ),
        pyLower fiat ≠ "usd" → fr = some rs →
        rs.find? (fun q => q.1 == pyLower fiat) = some (k, rate) →
        ∃ vs, (add_values_fx t p fr fiat).getCol "value_usd" = some vs
          ∧ (add_values_fx t p fr fiat).getCol ("value_" ++ pyLower fiat)
              = some (vs.map (fun x => Cell.mulQ x rate)))
    ∧ ((fr = none ∨ (∃ rs, fr = some rs
            ∧ rs.find? (fun q => q.1 == pyLower fiat) = none)
          ∨ pyLower fiat = "usd") →
        ∀ name, name ∉ t.colNames → name ≠ "coins" → name ≠ "value_usd" →
          (add_values_fx t p fr fiat).getCol name = none) := by
  refine ⟨?_, ?_, ?_⟩
  · simp only [add_values_fx]
    by_cases hb : fxCond fr fiat = true
    · rw [if_pos hb]
      have husd : pyLower fiat ≠ "usd" := by
        have h1 := (Bool.and_eq_true _ _).mp hb |>.1
        simpa using h1
      have hne : ("value_usd" : String) ≠ "value_" ++ pyLower fiat :=
        fun h => husd (value_name_eq_value_usd.mp h.symm)
      exact ⟨_, by rw [getCol_setCol_ne _ _ _ _ hne, getCol_setCol_self]⟩
    · rw [if_neg hb]
      exact ⟨_, getCol_setCol_self _ _ _⟩
  · intro rs k rate husd hfr hfind
    have hb : fxCond fr fiat = true := by
      subst hfr
      have hcons : rs ≠ [] := by
        intro h; subst h; simp [List.find?] at hfind
      simp [fxCond, hfind, husd, hcons]
    simp only [add_values_fx]
    rw [if_pos hb]
    have hne : ("value_usd" : String) ≠ "value_" ++ pyLower fiat :=
      fun h => husd (value_name_eq_value_usd.mp h.symm)
    have hrate : fxRate fr fiat = rate := by
      subst hfr
      simp [fxRate, hfind]
    refine ⟨_, by rw [getCol_setCol_ne _ _ _ _ hne, getCol_setCol_self], ?_⟩
    rw [getCol_setCol_self, hrate]
  · intro hfail name hnotin h1 h2
    have hb : fxCond fr fiat = false := by
      rcases hfail with rfl | ⟨rs, rfl, hfind⟩ | husd
      · simp [fxCond]
      · simp [fxCond, hfind]
      · simp [fxCond, husd]
    simp only [add_values_fx]
    rw [if_neg (by simp [hb])]
    rw [getCol_setCol_ne _ _ _ _ h2, getCol_setCol_ne _ _ _ _ h1]
    exact (getCol_eq_none_iff t name).mpr (by simpa [Table.colNames] using hnotin)

/-- **C8 witness** — with rates `{"eur": 2}` and display currency `EUR` the
column `value_eur = value_usd × 2` appears; with no rates mapping a fresh
`value_eur` column stays absent. -/
theorem claim_C8_witness :
    (∃ vs, (add_values_fx ⟨1, [("total_holdings", [Cell.num 5])]⟩ 3
        (some [("eur", 2)]) "EUR").getCol "value_usd" = some vs
      ∧ (add_values_fx ⟨1, [("total_holdings", [Cell.num 5])]⟩ 3
        (some [("eur", 2)]) "EUR").getCol "value_eur"
          = some (vs.map (fun x => Cell.mulQ x 2)))
    ∧ (add_values_fx ⟨1, [("total_holdings", [Cell.num 5])]⟩ 3
        none "EUR").getCol "value_eur" = none := by
  constructor
  · exact (claim_C8 ⟨1, [("total_holdings", [Cell.num 5])]⟩ 3
      (some [("eur", 2)]) "EUR").2.1 [("eur", 2)] "eur" 2
      (by decide) rfl (by decide)
  · exact (claim_C8 ⟨1, [("total_holdings", [Cell.num 5])]⟩ 3
      none "EUR").2.2 (Or.inl rfl) "value_eur" (by decide) (by decide)
      (by decide)

theorem coinsCellsOf_eq_coinsSpec (t : Table) : coinsCellsOf t = coinsSpec t := by
  unfold coinsCellsOf resolveAmountCol coinsSpec
  cases hf : candidates.find? (fun c => t.colNames.contains c) with
  | some c => rfl
  | none =>
    rw [find?_eq_filter_head?]
    cases hh : (t.cols.filter (fun q => isNumericDtype q.2)).head? with
    | some q => rfl
    | none => rfl

/-- **C1** — Amount-column resolution: the `coins` column `add_values_fx`
attaches is exactly the spec's resolution policy (`coinsSpec`): the first
present candidate of the fixed priority list, else the first numeric-dtype
column, else all-zero.  In particular, with no candidate name present, a
unique numeric column is the one selected, and with no numeric column at
all `coins` is zero for every row (never an error). -/
theorem claim_C1 (t : Table) (p : ℚ) (fr : Option (List (String × ℚ)))
    (fiat : String) :
    (add_values_fx t p fr fiat).getCol "coins" = some (coinsSpec t)
    ∧ ((∀ c ∈ candidates, c ∉ t.colNames) → ∀ (nm : String) (col : List Cell),
        t.cols.filter (fun q => isNumericDtype q.2) = [(nm, col)] →
        t.getCol nm = some col →
        (add_values_fx t p fr fiat).getCol "coins"
          = some (col.map (fun x => fillnaZero (toNumericCoerce x))))
    ∧ ((∀ c ∈ candidates, c ∉ t.colNames) →
        (∀ q ∈ t.cols, ¬ isNumericDtype q.2) →
        (add_values_fx t p fr fiat).getCol "coins"
          = some (List.replicate t.nrows (.num 0))) := by
  have hmain : (add_values_fx t p fr fiat).getCol "coins"
      = some (coinsCellsOf t) := by
    simp only [add_values_fx]
    by_cases hb : fxCond fr fiat = true
    · rw [if_pos hb,
        getCol_setCol_ne _ _ _ _ (fun h => value_name_ne_coins _ h.symm),
        getCol_setCol_ne _ _ _ _ (by decide), getCol_setCol_self]
    · rw [if_neg hb, getCol_setCol_ne _ _ _ _ (by decide), getCol_setCol_self]
  refine ⟨hmain.trans (congrArg some (coinsCellsOf_eq_coinsSpec t)), ?_, ?_⟩
  · intro habs nm col hfilter hget
    have hfnone : candidates.find? (fun c => t.colNames.contains c) = none := by
      rw [List.find?_eq_none]
      intro c hc
      simpa using habs c hc
    rw [hmain]
    congr 1
    unfold coinsCellsOf resolveAmountCol
    rw [hfnone, find?_eq_filter_head?, hfilter]
    simp [hget]
  · intro habs hnone
    have hfnone : candidates.find? (fun c => t.colNames.contains c) = none := by
      rw [List.find?_eq_none]
      intro c hc
      simpa using habs c hc
    have hfn2 : t.cols.find? (fun q => isNumericDtype q.2) = none := by
      rw [List.find?_eq_none]
      intro q hq
      simpa using hnone q hq
    rw [hmain]
    congr 1
    unfold coinsCellsOf resolveAmountCol
    rw [hfnone, hfn2]

/-- **C1 witness** — with no candidate column name present the unique
numeric column `weird` is selected, and a table with no numeric column at
all yields an all-zero `coins` column. -/
theorem claim_C1_witness :
    (add_values_fx ⟨1, [("name", [Cell.str "A"]), ("weird", [Cell.num 3])]⟩
        7 none "usd").getCol "coins"
      = some ([Cell.num 3].map (fun x => fillnaZero (toNumericCoerce x)))
    ∧ (add_values_fx ⟨2, [("name", [Cell.str "A", Cell.str "B"])]⟩
        7 none "usd").getCol "coins"
      = some (List.replicate 2 (.num 0)) := by
  constructor
  · exact (claim_C1 ⟨1, [("name", [Cell.str "A"]), ("weird", [Cell.num 3])]⟩
      7 none "usd").2.1 (by decide) "weird" [Cell.num 3] rfl rfl
  · exact (claim_C1 ⟨2, [("name", [Cell.str "A", Cell.str "B"])]⟩
      7 none "usd").2.2 (by decide) (by decide)
